import Mathlib

/-!
Verification of the adapt schema-migration engine against its specification.

The Go sources are shallowly embedded below. Strings model Go strings,
`Option` models nilable pointers, `Except` models fallible functions, and
driver I/O is modelled by explicit state passing plus success oracles for
the outcomes of SQL statement execution.
-/

set_option autoImplicit false

namespace Adapt

/-! ## Data model (core/hook.go, core/migration.go) -/

/-- Embeds `ParsedMigration` from core/hook.go: a transaction flag and the
ordered list of statement strings. -/
structure ParsedMigration where
  UseTx : Bool
  Stmts : List String
deriving DecidableEq, Repr

/-- Embeds the fields of `Migration` (core/migration.go) that the verified
code paths read: the id, the optional content hash and the optional stored
down-migration. `Down` holds the decoded form of the stored JSON payload;
the JSON round trip of the source is identity on this data. -/
structure Migration where
  ID : String
  Hash : Option String := none
  Down : Option ParsedMigration := none
deriving DecidableEq, Repr

/-- Embeds the fields of `AvailableMigration` (core/migration.go) read by the
reconciler: the id and the optional content hash. -/
structure AvailableMigration where
  ID : String
  Hash : Option String := none
deriving DecidableEq, Repr

/-! ## C1: findNeededMigrations (core/exec_migrate.go lines 67-103) -/

/-- Embeds the `for memIdx` loop body of `findNeededMigrations`. The Go loop
keeps the invariant `dbIdx < len(applied)`; out-of-range reads cannot occur
and are modelled with `List.getD`. -/
def findNeededLoop (applied : List Migration) (available : List AvailableMigration)
    (dbIdx memIdx : Nat) (needed : List AvailableMigration) : List AvailableMigration :=
  if _h : memIdx < available.length then
    if (applied.getD dbIdx ⟨"", none, none⟩).ID = (available.getD memIdx ⟨"", none⟩).ID then
      if dbIdx + 1 = applied.length then
        needed ++ available.drop (memIdx + 1)
      else
        findNeededLoop applied available (dbIdx + 1) (memIdx + 1) needed
    else
      findNeededLoop applied available dbIdx (memIdx + 1)
        (needed ++ [available.getD memIdx ⟨"", none⟩])
  else
    needed
termination_by available.length - memIdx
decreasing_by
  all_goals omega

/-- Embeds `findNeededMigrations` (core/exec_migrate.go): returns all
available migrations when nothing is applied, otherwise runs the merge
walk starting at `dbIdx = 0`, `memIdx = 0` with an empty accumulator. -/
def findNeededMigrations (applied : List Migration)
    (available : List AvailableMigration) : List AvailableMigration :=
  if applied.length = 0 then available
  else findNeededLoop applied available 0 0 []

/-- The merge walk of spec section 4.4 `needed(H, A)`, written as a
recursion: an empty history yields all of `A`; on an id match the history
advances (and an exhausted history yields the remaining locals); on a
mismatch the local entry is a hole appended to the result while the
history index stays fixed. -/
def neededMergeWalk : List Migration → List AvailableMigration → List AvailableMigration
  | [], ms => ms
  | _ :: _, [] => []
  | h :: hs, m :: ms =>
    if h.ID = m.ID then neededMergeWalk hs ms
    else m :: neededMergeWalk (h :: hs) ms

/-! ## C2 and C4: unknownAppliedMigrations (core/exec_start.go lines 31-67) -/

/-- The two fatal reconciliation errors of `unknownAppliedMigrations`. -/
inductive AdaptError where
  /-- hash of local migration changed (R2 violation) -/
  | integrityHash
  /-- known migration found after an unknown one (R1 violation) -/
  | integrityOrder
deriving DecidableEq, Repr

/-- Embeds the `searchLocal` closure: linear scan returning the first local
entry with the given id, or `none`. -/
def searchLocal (available : List AvailableMigration) (id : String) :
    Option AvailableMigration :=
  match available with
  | [] => none
  | l :: rest => if l.ID = id then some l else searchLocal rest id

/-- Embeds the `hashEqual` closure: `h1 == nil || h2 == nil || *h1 == *h2`. -/
def hashEqual : Option String → Option String → Bool
  | none, _ => true
  | _, none => true
  | some h1, some h2 => h1 = h2

/-- Embeds the `for _, a := range applied` loop of
`unknownAppliedMigrations` with its `unknown` accumulator. -/
def unknownLoop (available : List AvailableMigration) (check : Bool) :
    List Migration → List Migration → Except AdaptError (List Migration)
  | unknown, [] => .ok unknown
  | unknown, a :: rest =>
    match searchLocal available a.ID with
    | none => unknownLoop available check (unknown ++ [a]) rest
    | some l =>
      if check && !hashEqual a.Hash l.Hash then .error .integrityHash
      else if 0 < unknown.length then .error .integrityOrder
      else unknownLoop available check unknown rest

/-- Embeds `unknownAppliedMigrations` (core/exec_start.go). -/
def unknownAppliedMigrations (applied : List Migration)
    (available : List AvailableMigration) (check : Bool) :
    Except AdaptError (List Migration) :=
  unknownLoop available check [] applied

/-- `true` when the applied record has a matching local entry. -/
def knownLocally (available : List AvailableMigration) (a : Migration) : Bool :=
  (searchLocal available a.ID).isSome

/-- Boolean form of the hypothesis of C2: every known pair passes the
`hashEqual` comparison. -/
def hashesPass (applied : List Migration) (available : List AvailableMigration) : Bool :=
  applied.all fun a =>
    match searchLocal available a.ID with
    | none => true
    | some l => hashEqual a.Hash l.Hash

/-- `true` when somewhere in the list a record without a matching local
entry is followed, later in the list, by a record with one. -/
def badPairB (available : List AvailableMigration) : List Migration → Bool
  | [] => false
  | a :: rest =>
    (!knownLocally available a && rest.any (knownLocally available)) || badPairB available rest

/-! ## C3: stageRollback (core/exec.go lines 123-176) and the SQL-statements
execution path (core/exec_migrate_sqlstatements.go, driver_sql.go)

Driver I/O is modelled by explicit state passing. The persisted migration
store is the list of meta-row ids (`MetaView`). Executing a SQL statement
never touches the meta table; whether it succeeds is decided by an oracle.
Every physical database action is also recorded in an event trace so that
the execution target of each action is visible to theorems. Transaction
begin and commit are modelled as succeeding; their failure paths only make
the run abort, which the claims condition away. -/

/-- A database execution target: the connection pool or a transaction. -/
inductive DBTarget where
  | pool
  | tx (n : Nat)
deriving DecidableEq, Repr

/-- Observable database events: executing a SQL statement on a target, and
deleting a meta row on a target (`DeleteMigration`). -/
inductive Ev where
  | execStmt (t : DBTarget) (s : String)
  | del (t : DBTarget) (id : String)
deriving DecidableEq, Repr

/-- Ids currently present in the persisted migration store. -/
abbrev MetaView := List String

/-- A `beforeFinish` callback: receives the execution target and the meta
view, returns the new view (`none` on error) and the events it caused. -/
abbrev BeforeFinish := DBTarget → MetaView → Option MetaView × List Ev

/-- Outcome of the inner `exec` closure of `migrateWithSqlStatements`. -/
structure BodyOut where
  ok : Bool
  view : MetaView
  trace : List Ev
deriving DecidableEq, Repr

/-- Embeds the inner `exec` closure of `migrateWithSqlStatements`
(core/exec_migrate_sqlstatements.go lines 26-53): executes each statement in
order on the target, aborting on the first failure, then invokes the
`beforeFinishCallback` (when provided) on the same target. -/
def execClosure (oracle : String → Bool) (t : DBTarget) (cb : Option BeforeFinish) :
    List String → MetaView → List Ev → BodyOut
  | [], v, tr =>
    match cb with
    | none => ⟨true, v, tr⟩
    | some f =>
      match f t v with
      | (some v2, evs) => ⟨true, v2, tr ++ evs⟩
      | (none, evs) => ⟨false, v, tr ++ evs⟩
  | s :: rest, v, tr =>
    if oracle s then execClosure oracle t cb rest v (tr ++ [.execStmt t s])
    else ⟨false, v, tr ++ [.execStmt t s]⟩

/-- Embeds `migrateWithSqlStatements` (core/exec_migrate_sqlstatements.go)
for a plain `DatabaseDriver`: without transaction support, or when the
parsed migration opts out, the statements run directly against the pool;
otherwise they run inside a fresh transaction (numbered `txn`) which is
committed on success and rolled back on failure, discarding its changes. -/
def migrateWithSqlStatements (oracle : String → Bool) (supportsTx : Bool) (txn : Nat)
    (parsed : ParsedMigration) (cb : Option BeforeFinish) (meta : MetaView)
    (tr : List Ev) : Except Unit (MetaView × List Ev) :=
  if !supportsTx || !parsed.UseTx then
    let out := execClosure oracle .pool cb parsed.Stmts meta tr
    if out.ok then .ok (out.view, out.trace) else .error ()
  else
    let out := execClosure oracle (.tx txn) cb parsed.Stmts meta tr
    if out.ok then .ok (out.view, out.trace) else .error ()

/-- Embeds the callback `stageRollback` passes to the execution path: it
calls `DeleteMigration(u.ID, execDestination)` on the passed target, which
executes a DELETE for the id (driver_sql.go lines 298-305); failure is
decided by the delete oracle. -/
def delBeforeFinish (delOracle : String → Bool) (id : String) : BeforeFinish :=
  fun t v =>
    (if delOracle id then some (v.filter fun x => !(x = id)) else none, [Ev.del t id])

/-- Embeds `allUnknownProvideParsedDown` (core/exec.go lines 178-187). -/
def allUnknownProvideParsedDown (unknown : List Migration) : Bool :=
  unknown.all fun u => u.Down.isSome

/-- Embeds the `for _, u := range reversed` loop of `stageRollback`: each
unknown migration in turn has its stored down-migration executed with the
meta-row delete as `beforeFinish`; the first failure aborts. -/
def rollbackLoop (oracle delOracle : String → Bool) (supportsTx : Bool) :
    List Migration → MetaView → List Ev → Nat → Except Unit (MetaView × List Ev)
  | [], meta, tr, _ => .ok (meta, tr)
  | u :: rest, meta, tr, txn =>
    match u.Down with
    | none => .error ()
    | some down =>
      match migrateWithSqlStatements oracle supportsTx txn down
          (some (delBeforeFinish delOracle u.ID)) meta tr with
      | .error e => .error e
      | .ok (meta2, tr2) => rollbackLoop oracle delOracle supportsTx rest meta2 tr2 (txn + 1)

/-- Embeds `stageRollback` (core/exec.go lines 123-176): aborts unless every
unknown migration provides a down payload, then processes the unknown list
in reverse order. -/
def stageRollback (oracle delOracle : String → Bool) (supportsTx : Bool)
    (unknownApplied : List Migration) (meta : MetaView) (tr : List Ev) :
    Except Unit (MetaView × List Ev) :=
  if !allUnknownProvideParsedDown unknownApplied then .error ()
  else rollbackLoop oracle delOracle supportsTx unknownApplied.reverse meta tr 0

/-! ## C5: the stmtDriver global-transaction adapter (driver_sql.go)

The adapter is modelled as a run: the capability flags chosen at `Init`, a
list of events (driver operations with their SQL outcome, plus caller-level
errors that never reach the driver), and the `Close` decision computed from
the internal `rollback` flag. -/

/-- The driver operations of `stmtDriver` whose failure is observable. -/
inductive OpKind where
  | acquireLock | releaseLock
  /-- the initial `d.target.Query` of `ListMigrations` (line 160) -/
  | listQuery
  /-- one `rows.Scan` inside the row loop of `ListMigrations` (lines 176-179) -/
  | listScan
  /-- the `rows.Err()` check of `ListMigrations` (line 199) -/
  | listRows
  | addMigration
  /-- one `d.target.Exec(s)` inside `stmtDriver.Migrate` -/
  | migrateStmt
  /-- the `beforeFinish` callback inside `stmtDriver.Migrate` -/
  | beforeFinishCb
  | setFinished | deleteMigration
deriving DecidableEq, Repr

/-- One event of a run: a driver operation together with whether its SQL
succeeded, or an error raised outside the driver (reconciler, parser, ...)
that is never communicated to the adapter. -/
inductive RunEv where
  | op (k : OpKind) (ok : Bool)
  | callerError
deriving DecidableEq, Repr

/-- Which failing operations set `d.rollback = true` in driver_sql.go. Every
failing operation does, except two paths inside `ListMigrations` that return
their error without touching the flag: the initial `Query` (lines 160-162)
and a failing `rows.Scan` in the row loop (lines 176-179). Only the final
`rows.Err()` check of `ListMigrations` sets the flag (lines 199-203). -/
def opSetsRollback : OpKind → Bool
  | .listQuery => false
  | .listScan => false
  | _ => true

/-- Folds one event into the `rollback` flag. -/
def stepRollback (r : Bool) : RunEv → Bool
  | .op k ok => r || (!ok && opSetsRollback k)
  | .callerError => r

/-- The `rollback` flag after a whole run, starting from `false`. -/
def runRollbackFlag (evs : List RunEv) : Bool :=
  evs.foldl stepRollback false

/-- The capability flags `stmtDriver.Init` consults. -/
structure DriverCaps where
  supportsTx : Bool
  useGlobalTx : Bool
deriving DecidableEq, Repr

/-- The execution target of the whole run: global transaction or pool. -/
inductive GlobalTarget where
  | pool
  | globalTx
deriving DecidableEq, Repr

/-- Embeds the target choice of `stmtDriver.Init` (driver_sql.go lines
99-125): a single transaction is begun and installed as `d.target` exactly
when `SupportsTx() && UseGlobalTx()`. -/
def initTarget (d : DriverCaps) : GlobalTarget :=
  if d.supportsTx && d.useGlobalTx then .globalTx else .pool

/-- What `stmtDriver.Close` does to the global transaction. -/
inductive CloseAct where
  | commitTx
  | rollbackTx
  | nothing
deriving DecidableEq, Repr

/-- Embeds `stmtDriver.Close` (driver_sql.go lines 257-284): when a global
transaction was begun, it is rolled back if `d.rollback` is set and
committed otherwise; without a global transaction nothing happens. -/
def closeAct (d : DriverCaps) (rollbackFlag : Bool) : CloseAct :=
  if d.supportsTx && d.useGlobalTx then
    if rollbackFlag then .rollbackTx else .commitTx
  else .nothing

/-! ## C6: the two MySQL dialect drivers -/

/-- Configuration of the adapt-package `mysqlDriver` (src/unnamed/part_002). -/
structure MysqlDriverNew where
  tableName : String := "_adapt._migrations"
  txDisabled : Bool := false
deriving DecidableEq, Repr

/-- part_002 line 183: `SupportsLocks` returns `false`. -/
def MysqlDriverNew.SupportsLocks (_ : MysqlDriverNew) : Bool := false

/-- part_002 lines 186-189: `AcquireLock` panics with "not supported" and
produces no query; modelled as `none`. -/
def MysqlDriverNew.AcquireLock (_ : MysqlDriverNew) : Option String := none

/-- part_002 lines 191-194: `ReleaseLock` panics with "not supported" and
produces no query; modelled as `none`. -/
def MysqlDriverNew.ReleaseLock (_ : MysqlDriverNew) : Option String := none

/-- part_002 line 230: `UseGlobalTx` returns `true`. -/
def MysqlDriverNew.UseGlobalTx (_ : MysqlDriverNew) : Bool := true

/-- part_002 line 222: `SupportsTx` returns `!d.txDisabled`. -/
def MysqlDriverNew.SupportsTx (d : MysqlDriverNew) : Bool := !d.txDisabled

/-- part_002 lines 233-235: the `DeleteMigration` query and argument. -/
def MysqlDriverNew.DeleteMigration (d : MysqlDriverNew) (migrationID : String) :
    String × List String :=
  ("DELETE FROM " ++ d.tableName ++ " WHERE id=?", [migrationID])

/-- Configuration of the legacy core-package `mysqlDriver`
(src/core, second section of driver_file.go). -/
structure MysqlDriverCore where
  tableName : String := "_adapt._migrations"
  txDisabled : Bool := false
deriving DecidableEq, Repr

/-- core mysqlDriver: `SupportsLocks` returns `true`. -/
def MysqlDriverCore.SupportsLocks (_ : MysqlDriverCore) : Bool := true

/-- core mysqlDriver: `AcquireLock` returns `LOCK TABLE t WRITE`. -/
def MysqlDriverCore.AcquireLock (d : MysqlDriverCore) : String :=
  "LOCK TABLE " ++ d.tableName ++ " WRITE"

/-- core mysqlDriver: `ReleaseLock` returns `UNLOCK TABLES`. -/
def MysqlDriverCore.ReleaseLock (_ : MysqlDriverCore) : String :=
  "UNLOCK TABLES"

/-- core mysqlDriver: `UseGlobalTx` returns `false`. -/
def MysqlDriverCore.UseGlobalTx (_ : MysqlDriverCore) : Bool := false

/-- core mysqlDriver: the `DeleteMigration` query and argument. -/
def MysqlDriverCore.DeleteMigration (d : MysqlDriverCore) (migrationID : String) :
    String × List String :=
  ("DELETE FROM " ++ d.tableName ++ " WHERE id=?", [migrationID])

/-! ## C7: genDeploymentID (core/exec_migrate.go lines 50-65) -/

/-- One lowercase hexadecimal digit, as produced by Go `encoding/hex`. -/
def hexDigit (n : Nat) : Char :=
  if n < 10 then Char.ofNat (48 + n) else Char.ofNat (87 + n)

/-- `hex.EncodeToString` on one byte: high nibble then low nibble. -/
def hexEncodeByte (b : Nat) : List Char :=
  [hexDigit (b / 16 % 16), hexDigit (b % 16)]

/-- `hex.EncodeToString` on a byte buffer. -/
def hexEncode (buf : List Nat) : List Char :=
  (buf.map hexEncodeByte).flatten

/-- Embeds `genDeploymentID` as a function of the 12 random bytes read from
`crypto/rand`: hex-encode them, slice the 24 hex characters into four groups
of six, and join with the `ADAPT-` banner. -/
def genDeploymentID (buf : List Nat) : String :=
  let str := hexEncode buf
  let p1 := str.take 6
  let p2 := (str.drop 6).take 6
  let p3 := (str.drop 12).take 6
  let p4 := str.drop 18
  "ADAPT-" ++ String.mk p1 ++ "-" ++ String.mk p2 ++ "-" ++ String.mk p3
    ++ "-" ++ String.mk p4

/-- A lowercase hexadecimal digit in the sense of the regex `[0-9a-f]`. -/
def isLowerHexDigit (c : Char) : Bool :=
  ('0' ≤ c && c ≤ '9') || ('a' ≤ c && c ≤ 'f')

/-! ## C8 and C10: the migration-script parser (core/hook.go) -/

/-- Embeds `scanLines` (core/hook.go lines 218-229): splits the input into
lines, each token keeping its terminating newline byte; a final segment
without a newline is yielded as is; no token is produced at bare EOF. -/
def scanLinesAux (cur : List Char) : List Char → List (List Char)
  | [] => if cur.isEmpty then [] else [cur.reverse]
  | c :: cs =>
    if c = '\n' then (cur.reverse ++ ['\n']) :: scanLinesAux [] cs
    else scanLinesAux (c :: cur) cs

/-- All scanner tokens of an input. -/
def scanLines (input : List Char) : List (List Char) :=
  scanLinesAux [] input

/-- Embeds `dropCR` (core/hook.go lines 231-237): removes the last character
when it is a carriage return. -/
def dropCR (data : List Char) : List Char :=
  match data.getLast? with
  | some '\r' => data.dropLast
  | _ => data

/-- Go `strings.TrimSpace` restricted to the whitespace characters that can
occur here. -/
def trimSpace (l : List Char) : List Char :=
  ((l.dropWhile Char.isWhitespace).reverse.dropWhile Char.isWhitespace).reverse

/-- Embeds `strings.SplitAfter(line, ";")`: splits after every semicolon,
keeping it; always yields one final (possibly empty) segment. -/
def splitAfterSemiAux (cur : List Char) : List Char → List (List Char)
  | [] => [cur.reverse]
  | c :: cs =>
    if c = ';' then (cur.reverse ++ [';']) :: splitAfterSemiAux [] cs
    else splitAfterSemiAux (c :: cur) cs

/-- `strings.SplitAfter` on `;` for a whole line. -/
def splitAfterSemi (line : List Char) : List (List Char) :=
  splitAfterSemiAux [] line

/-- The mutable state of the `Parse` scan loop. -/
structure ParseState where
  useTx : Bool
  stmts : List (List Char)
  buf : List Char
  inStatement : Bool
deriving DecidableEq, Repr

/-- The directive marker `-- +adapt ` of core/hook.go line 157. -/
def cmdMarker : List Char := "-- +adapt ".toList

/-- Embeds one iteration of the `for scanner.Scan()` loop of `Parse`
(core/hook.go lines 147-202). -/
def parseLine (st : ParseState) (rawLine : List Char) : Except String ParseState :=
  let line := dropCR rawLine
  let trimmedLine := trimSpace line
  if !st.inStatement && trimmedLine.length = 0 then .ok st
  else if cmdMarker.isPrefixOf trimmedLine then
    let option := trimmedLine.drop cmdMarker.length
    if option = "NoTransaction".toList then
      if 0 < st.stmts.length || 0 < st.buf.length then
        .error "adapt/core.Parse: NoTransaction option must be in the first line of the file"
      else .ok { st with useTx := false }
    else if option = "BeginStatement".toList then
      .ok { st with inStatement := true }
    else if option = "EndStatement".toList then
      .ok { st with stmts := st.stmts ++ [st.buf], buf := [], inStatement := false }
    else .error "adapt/core.Parse: unknown option at start of line"
  else
    if st.inStatement || !line.contains ';' then
      .ok { st with buf := st.buf ++ line }
    else
      let split := splitAfterSemi line
      let st := { st with stmts := st.stmts ++ [st.buf ++ split.headD []], buf := [] }
      let middle := (split.drop 1).dropLast
      let st := { st with
        stmts := st.stmts ++ (middle.filter fun part => 0 < (trimSpace part).length) }
      let last := split.getLastD []
      if 0 < (trimSpace last).length then .ok { st with buf := st.buf ++ last }
      else .ok st

/-- Runs the scan loop over all lines. -/
def parseLines (st : ParseState) : List (List Char) → Except String ParseState
  | [] => .ok st
  | l :: rest =>
    match parseLine st l with
    | .error e => .error e
    | .ok st2 => parseLines st2 rest

/-- Embeds `Parse` (core/hook.go lines 135-216): scan all lines, flush a
non-whitespace buffer as the final statement, then trim every statement. -/
def Parse (input : List Char) : Except String ParsedMigration :=
  match parseLines ⟨true, [], [], false⟩ (scanLines input) with
  | .error e => .error e
  | .ok st =>
    let stmts :=
      if 0 < st.buf.length && 0 < (trimSpace st.buf).length
      then st.stmts ++ [st.buf] else st.stmts
    .ok ⟨st.useTx, stmts.map fun s => String.mk (trimSpace s)⟩

/-- The byte stream `ParsedMigration.Hash` (core/hook.go lines 87-96) feeds
to sha256: `strconv.FormatBool(m.UseTx)` followed by every statement with no
separator in between. -/
def hashInput (m : ParsedMigration) : String :=
  (if m.UseTx then "true" else "false") ++ String.join m.Stmts

/-- Embeds `ParsedMigration.Hash`, parametrised by the hex-encoded sha256
digest function, which the embedding never inspects: equal byte streams
yield equal digests. -/
def ParsedMigration.Hash (sha256hex : String → String) (m : ParsedMigration) : String :=
  sha256hex (hashInput m)

/-! ## C9: exec.run (src/exec.go lines 61-108) -/

/-- The environment of one `run()` invocation: for every stage the error it
would return when reached, whether `acquireDriverLock` would set
`driverLockAcquired` (it can succeed without acquiring when locking is
disabled or unsupported), and the errors of the two teardown steps. -/
structure RunEnv (ε : Type) where
  initE : Option ε
  healthE : Option ε
  prepLocalE : Option ε
  acquireE : Option ε
  lockAcquired : Bool
  prepRemoteE : Option ε
  startE : Option ε
  unlockE : Option ε
  closeE : Option ε

/-- Outcome of `run()`: the returned error and which teardown steps ran. -/
structure RunOut (ε : Type) where
  err : Option ε
  closeRan : Bool
  unlockRan : Bool

/-- Embeds `run()` (src/exec.go lines 61-108): stages run in order and the
first error short-circuits; the close defer is registered first and so runs
last on every path; the unlock defer is registered only once the lock is
acquired; each deferred step keeps its own error only when `err` is still
nil at that point. -/
def runModel {ε : Type} (env : RunEnv ε) : RunOut ε :=
  let body : Option ε × Bool :=
    match env.initE with
    | some e => (some e, false)
    | none =>
      match env.healthE with
      | some e => (some e, false)
      | none =>
        match env.prepLocalE with
        | some e => (some e, false)
        | none =>
          match env.acquireE with
          | some e => (some e, false)
          | none =>
            match env.prepRemoteE with
            | some e => (some e, env.lockAcquired)
            | none => (env.startE, env.lockAcquired)
  let bodyErr := body.1
  let lockHeld := body.2
  let afterUnlock :=
    if lockHeld then
      match bodyErr with
      | some e => some e
      | none => env.unlockE
    else bodyErr
  let finalErr :=
    match afterUnlock with
    | some e => some e
    | none => env.closeE
  ⟨finalErr, true, lockHeld⟩

/-- The first stage error, spec side: any stage error short-circuits. -/
def firstStageErr {ε : Type} (env : RunEnv ε) : Option ε :=
  env.initE |>.or (env.healthE |>.or (env.prepLocalE |>.or
    (env.acquireE |>.or (env.prepRemoteE |>.or env.startE))))

/-- Whether the driver lock was acquired during the body: all stages before
and including `acquireDriverLock` succeeded and the lock flag was set. -/
def lockWasAcquired {ε : Type} (env : RunEnv ε) : Bool :=
  env.initE.isNone && env.healthE.isNone && env.prepLocalE.isNone
    && env.acquireE.isNone && env.lockAcquired

/-! # Theorems -/

/-! ## C1 -/

theorem findNeededLoop_eq_walk (applied : List Migration)
    (available : List AvailableMigration) :
    ∀ (n memIdx dbIdx : Nat) (needed : List AvailableMigration),
      available.length - memIdx ≤ n → dbIdx < applied.length →
      findNeededLoop applied available dbIdx memIdx needed
        = needed ++ neededMergeWalk (applied.drop dbIdx) (available.drop memIdx) := by
  intro n
  induction n with
  | zero =>
    intro memIdx dbIdx needed hle hdb
    have hge : available.length ≤ memIdx := by omega
    rw [findNeededLoop, dif_neg (by omega)]
    rw [List.drop_eq_nil_of_le hge, List.drop_eq_getElem_cons hdb, neededMergeWalk]
    simp
  | succ n ih =>
    intro memIdx dbIdx needed hle hdb
    by_cases hm : memIdx < available.length
    · rw [findNeededLoop, dif_pos hm]
      rw [List.getD_eq_getElem applied _ hdb, List.getD_eq_getElem available _ hm]
      rw [List.drop_eq_getElem_cons hdb, List.drop_eq_getElem_cons hm, neededMergeWalk]
      by_cases heq : applied[dbIdx].ID = available[memIdx].ID
      · rw [if_pos heq, if_pos heq]
        by_cases hlast : dbIdx + 1 = applied.length
        · rw [if_pos hlast]
          rw [@List.drop_eq_nil_of_le _ applied (dbIdx + 1) (by omega)]
          simp [neededMergeWalk]
        · rw [if_neg hlast]
          exact ih (memIdx + 1) (dbIdx + 1) needed (by omega) (by omega)
      · rw [if_neg heq, if_neg heq]
        rw [ih (memIdx + 1) dbIdx (needed ++ [available[memIdx]]) (by omega) hdb]
        rw [List.drop_eq_getElem_cons hdb, List.append_assoc]
        rfl
    · have hge : available.length ≤ memIdx := by omega
      rw [findNeededLoop, dif_neg (by omega)]
      rw [List.drop_eq_nil_of_le hge, List.drop_eq_getElem_cons hdb, neededMergeWalk]
      simp

theorem findNeeded_eq_walk (applied : List Migration)
    (available : List AvailableMigration) :
    findNeededMigrations applied available = neededMergeWalk applied available := by
  cases applied with
  | nil => simp [findNeededMigrations, neededMergeWalk]
  | cons a rest =>
    rw [findNeededMigrations, if_neg (by simp)]
    simpa using findNeededLoop_eq_walk (a :: rest) available available.length 0 0 []
      (by omega) (by simp)

/-- C1: `findNeededMigrations` computes exactly the merge walk of the
specification — an empty history returns all available migrations, a
mismatching local entry is appended as a hole while the applied index stays
fixed, a match advances the applied index, and an exhausted history appends
all remaining local entries — and on applied ids 1, 2, 4 against local ids
1, 2, 3, 4, 5, 7 it yields 3, 5, 7 in that order. -/
theorem findNeededMigrations_spec :
    (∀ (applied : List Migration) (available : List AvailableMigration),
      findNeededMigrations applied available = neededMergeWalk applied available) ∧
    findNeededMigrations
        [{ ID := "1" }, { ID := "2" }, { ID := "4" }]
        [{ ID := "1" }, { ID := "2" }, { ID := "3" }, { ID := "4" },
          { ID := "5" }, { ID := "7" }]
      = [{ ID := "3" }, { ID := "5" }, { ID := "7" }] :=
  ⟨findNeeded_eq_walk, by rw [findNeeded_eq_walk]; decide⟩

/-! ## C2 -/

theorem knownLocally_iff (available : List AvailableMigration) (a : Migration) :
    knownLocally available a = true ↔ a.ID ∈ available.map AvailableMigration.ID := by
  induction available with
  | nil => simp [knownLocally, searchLocal]
  | cons l rest ih =>
    by_cases h : l.ID = a.ID
    · simp [knownLocally, searchLocal, h]
    · simp only [knownLocally, searchLocal, if_neg h, List.map_cons, List.mem_cons]
      rw [ih.symm]
      constructor
      · intro hk; exact .inr hk
      · rintro (hk | hk)
        · exact absurd hk.symm h
        · exact hk

theorem hashesPass_cons (a : Migration) (rest : List Migration)
    (available : List AvailableMigration)
    (h : hashesPass (a :: rest) available = true) :
    hashesPass rest available = true := by
  revert h
  simp only [hashesPass, List.all_cons, Bool.and_eq_true]
  exact fun h => h.2

theorem unknownLoop_eq (available : List AvailableMigration) (check : Bool) :
    ∀ (rest acc : List Migration),
      (check = false ∨ hashesPass rest available = true) →
      unknownLoop available check acc rest =
        if badPairB available rest
            || (!acc.isEmpty && rest.any (knownLocally available))
        then .error .integrityOrder
        else .ok (acc ++ rest.filter fun a => !knownLocally available a) := by
  intro rest
  induction rest with
  | nil =>
    intro acc _
    simp [unknownLoop, badPairB]
  | cons a rest ih =>
    intro acc hp
    have hp2 : check = false ∨ hashesPass rest available = true := by
      rcases hp with h | h
      · exact .inl h
      · exact .inr (hashesPass_cons a rest available h)
    cases hsl : searchLocal available a.ID with
    | none =>
      have hk : knownLocally available a = false := by simp [knownLocally, hsl]
      have hne : (acc ++ [a]).isEmpty = false := by cases acc <;> rfl
      have lhs : unknownLoop available check acc (a :: rest)
          = unknownLoop available check (acc ++ [a]) rest := by
        rw [unknownLoop, hsl]
      rw [lhs, ih (acc ++ [a]) hp2]
      cases hb : badPairB available rest <;>
        cases hy : rest.any (knownLocally available) <;>
          simp [badPairB, hk, hb, hy, hne, List.any_cons, List.filter_cons,
            List.append_assoc]
    | some l =>
      have hk : knownLocally available a = true := by simp [knownLocally, hsl]
      have hhash : (check && !hashEqual a.Hash l.Hash) = false := by
        rcases hp with h | h
        · simp [h]
        · have he : hashEqual a.Hash l.Hash = true := by
            revert h
            simp only [hashesPass, List.all_cons, Bool.and_eq_true, hsl]
            exact fun h => h.1
          simp [he]
      have lhs : unknownLoop available check acc (a :: rest)
          = if check && !hashEqual a.Hash l.Hash then Except.error AdaptError.integrityHash
            else if 0 < acc.length then Except.error AdaptError.integrityOrder
            else unknownLoop available check acc rest := by
        rw [unknownLoop, hsl]
      rw [lhs, if_neg (by simp [hhash])]
      cases acc with
      | nil =>
        rw [if_neg (by simp), ih [] hp2]
        simp [badPairB, hk, List.filter_cons]
      | cons x xs =>
        rw [if_pos (by simp)]
        simp [badPairB, List.any_cons, hk]

theorem badPairB_iff (available : List AvailableMigration) :
    ∀ applied : List Migration,
      badPairB available applied = true ↔
      ∃ (pre : List Migration) (a : Migration) (mid : List Migration)
        (b : Migration) (post : List Migration),
        applied = pre ++ a :: (mid ++ b :: post) ∧
        a.ID ∉ available.map AvailableMigration.ID ∧
        b.ID ∈ available.map AvailableMigration.ID := by
  intro applied
  induction applied with
  | nil =>
    simp only [badPairB, Bool.false_eq_true, false_iff]
    rintro ⟨pre, a, mid, b, post, h, -, -⟩
    exact absurd h (by simp)
  | cons x rest ih =>
    simp only [badPairB, Bool.or_eq_true, Bool.and_eq_true]
    constructor
    · rintro (⟨hx, hy⟩ | hb)
      · obtain ⟨b, hbmem, hbk⟩ := List.any_eq_true.mp hy
        obtain ⟨s, t, hst⟩ := List.append_of_mem hbmem
        refine ⟨[], x, s, b, t, by simp [hst], ?_, (knownLocally_iff available b).mp hbk⟩
        intro hmem
        rw [← knownLocally_iff available x] at hmem
        simp [hmem] at hx
      · obtain ⟨pre, a, mid, b, post, h1, h2, h3⟩ := ih.mp hb
        exact ⟨x :: pre, a, mid, b, post, by simp [h1], h2, h3⟩
    · rintro ⟨pre, a, mid, b, post, h1, h2, h3⟩
      cases pre with
      | nil =>
        simp only [List.nil_append, List.cons.injEq] at h1
        obtain ⟨rfl, rfl⟩ := h1
        refine .inl ⟨?_, ?_⟩
        · rw [← knownLocally_iff available x] at h2
          simp [Bool.not_eq_true] at h2 ⊢
          exact h2
        · exact List.any_eq_true.mpr ⟨b, by simp, (knownLocally_iff available b).mpr h3⟩
      | cons p pre2 =>
        simp only [List.cons_append, List.cons.injEq] at h1
        obtain ⟨rfl, rfl⟩ := h1
        exact .inr (ih.mpr ⟨pre2, a, mid, b, post, rfl, h2, h3⟩)

theorem filter_unknown_suffix (available : List AvailableMigration) :
    ∀ applied : List Migration, badPairB available applied = false →
      (applied.filter fun a => !knownLocally available a) <:+ applied := by
  intro applied
  induction applied with
  | nil => intro _; simp
  | cons x rest ih =>
    intro h
    simp only [badPairB, Bool.or_eq_false_iff, Bool.and_eq_false_iff] at h
    obtain ⟨h1, h2⟩ := h
    cases hk : knownLocally available x with
    | true =>
      rw [List.filter_cons_of_neg (by simp [hk])]
      exact (ih h2).trans (List.suffix_cons x rest)
    | false =>
      have hany : rest.any (knownLocally available) = false := by
        rcases h1 with h1 | h1
        · simp [hk] at h1
        · exact h1
      have hall : ∀ a ∈ rest, (!knownLocally available a) = true := by
        intro a ha
        have := List.any_eq_false.mp hany a ha
        simp [this]
      rw [List.filter_cons_of_pos (by simp [hk]), List.filter_eq_self.mpr hall]

/-- C2: when every known pair passes the hash comparison,
`unknownAppliedMigrations` returns a fatal error exactly when some applied
record with a matching local entry occurs after an applied record without
one; and when no such pair exists it returns exactly the applied records
without local entries, in order, and these form a contiguous suffix of the
applied history. -/
theorem unknownAppliedMigrations_spec (applied : List Migration)
    (available : List AvailableMigration) (check : Bool)
    (hp : check = false ∨ hashesPass applied available = true) :
    ((∃ e, unknownAppliedMigrations applied available check = .error e) ↔
      ∃ (pre : List Migration) (a : Migration) (mid : List Migration)
        (b : Migration) (post : List Migration),
        applied = pre ++ a :: (mid ++ b :: post) ∧
        a.ID ∉ available.map AvailableMigration.ID ∧
        b.ID ∈ available.map AvailableMigration.ID) ∧
    ((¬ ∃ (pre : List Migration) (a : Migration) (mid : List Migration)
        (b : Migration) (post : List Migration),
        applied = pre ++ a :: (mid ++ b :: post) ∧
        a.ID ∉ available.map AvailableMigration.ID ∧
        b.ID ∈ available.map AvailableMigration.ID) →
      unknownAppliedMigrations applied available check
          = .ok (applied.filter fun a => !knownLocally available a) ∧
        (applied.filter fun a => !knownLocally available a) <:+ applied) := by
  have hrun : unknownAppliedMigrations applied available check =
      if badPairB available applied then .error .integrityOrder
      else .ok (applied.filter fun a => !knownLocally available a) := by
    rw [unknownAppliedMigrations, unknownLoop_eq available check applied [] hp]
    simp
  constructor
  · rw [← badPairB_iff available applied]
    constructor
    · rintro ⟨e, he⟩
      by_contra hb
      rw [hrun, if_neg (by simp [Bool.not_eq_true] at hb; simp [hb])] at he
      exact Except.noConfusion he
    · intro hb
      rw [hrun, if_pos (by simp [hb])]
      exact ⟨.integrityOrder, rfl⟩
  · intro hne
    rw [← badPairB_iff available applied] at hne
    have hb : badPairB available applied = false := by
      cases h : badPairB available applied
      · rfl
      · exact absurd h hne
    refine ⟨by rw [hrun, if_neg (by simp [hb])], filter_unknown_suffix available applied hb⟩

/-- Witness for C2 at a concrete input: applied ids 1 then 2 against local
set containing only 1; the hash hypothesis holds and the conclusion follows
by applying the theorem. -/
theorem unknownAppliedMigrations_spec_witness :
    ((true = false ∨ hashesPass [{ ID := "1" }, { ID := "2" }] [{ ID := "1" }] = true)) ∧
    (((∃ e, unknownAppliedMigrations [{ ID := "1" }, { ID := "2" }] [{ ID := "1" }] true
          = .error e) ↔
      ∃ (pre : List Migration) (a : Migration) (mid : List Migration)
        (b : Migration) (post : List Migration),
        [({ ID := "1" } : Migration), { ID := "2" }] = pre ++ a :: (mid ++ b :: post) ∧
        a.ID ∉ [({ ID := "1" } : AvailableMigration)].map AvailableMigration.ID ∧
        b.ID ∈ [({ ID := "1" } : AvailableMigration)].map AvailableMigration.ID) ∧
    ((¬ ∃ (pre : List Migration) (a : Migration) (mid : List Migration)
        (b : Migration) (post : List Migration),
        [({ ID := "1" } : Migration), { ID := "2" }] = pre ++ a :: (mid ++ b :: post) ∧
        a.ID ∉ [({ ID := "1" } : AvailableMigration)].map AvailableMigration.ID ∧
        b.ID ∈ [({ ID := "1" } : AvailableMigration)].map AvailableMigration.ID) →
      unknownAppliedMigrations [{ ID := "1" }, { ID := "2" }] [{ ID := "1" }] true
          = .ok ([({ ID := "1" } : Migration), { ID := "2" }].filter
              fun a => !knownLocally [{ ID := "1" }] a) ∧
        ([({ ID := "1" } : Migration), { ID := "2" }].filter
            fun a => !knownLocally [{ ID := "1" }] a)
          <:+ [({ ID := "1" } : Migration), { ID := "2" }])) :=
  ⟨by decide,
    unknownAppliedMigrations_spec [{ ID := "1" }, { ID := "2" }] [{ ID := "1" }] true
      (by decide)⟩

/-! ## C4 -/

/-- C4: with hash checks enabled, for a known pair the `hashEqual`
comparison fails exactly when both hashes are present and differ; a failing
comparison raises the hash-integrity fatal error at that pair, and a pair
with an absent hash on either side compares as equal and the scan simply
continues with the remaining applied records. -/
theorem hashEqual_integrity_spec (available : List AvailableMigration)
    (a : Migration) (l : AvailableMigration) (rest : List Migration)
    (hsl : searchLocal available a.ID = some l) :
    (hashEqual a.Hash l.Hash = false ↔
      ∃ s1 s2, a.Hash = some s1 ∧ l.Hash = some s2 ∧ s1 ≠ s2) ∧
    (hashEqual a.Hash l.Hash = false →
      unknownLoop available true [] (a :: rest) = .error .integrityHash) ∧
    ((a.Hash = none ∨ l.Hash = none) →
      unknownLoop available true [] (a :: rest) = unknownLoop available true [] rest) := by
  have step : unknownLoop available true [] (a :: rest)
      = if true && !hashEqual a.Hash l.Hash then Except.error AdaptError.integrityHash
        else if 0 < ([] : List Migration).length then Except.error AdaptError.integrityOrder
        else unknownLoop available true [] rest := by
    rw [unknownLoop, hsl]
  refine ⟨?_, ?_, ?_⟩
  · cases h1 : a.Hash <;> cases h2 : l.Hash <;> simp [hashEqual]
  · intro hf
    rw [step, if_pos (by simp [hf])]
  · intro habs
    have ht : hashEqual a.Hash l.Hash = true := by
      rcases habs with h | h <;> cases h1 : a.Hash <;> cases h2 : l.Hash <;>
        simp_all [hashEqual]
    rw [step, if_neg (by simp [ht]), if_neg (by simp)]

/-- Witness for C4 at the concrete pair of spec scenario S3: applied hash A
against local hash B for the same id. -/
theorem hashEqual_integrity_spec_witness :
    searchLocal [{ ID := "m", Hash := some "B" }] "m" = some { ID := "m", Hash := some "B" } ∧
    ((hashEqual (some "A") (some "B") = false ↔
      ∃ s1 s2, (some "A" : Option String) = some s1 ∧ (some "B" : Option String) = some s2
        ∧ s1 ≠ s2) ∧
    (hashEqual (some "A") (some "B") = false →
      unknownLoop [{ ID := "m", Hash := some "B" }] true []
          [{ ID := "m", Hash := some "A" }] = .error .integrityHash) ∧
    (((some "A" : Option String) = none ∨ (some "B" : Option String) = none) →
      unknownLoop [{ ID := "m", Hash := some "B" }] true []
          [{ ID := "m", Hash := some "A" }] = unknownLoop [{ ID := "m", Hash := some "B" }] true [] [])) :=
  ⟨by decide,
    hashEqual_integrity_spec [{ ID := "m", Hash := some "B" }]
      { ID := "m", Hash := some "A" } { ID := "m", Hash := some "B" } [] (by decide)⟩

/-! ## C3 -/

theorem execClosure_del_ok (oracle delOracle : String → Bool) (t : DBTarget) (id : String) :
    ∀ (stmts : List String) (v : MetaView) (tr : List Ev),
      (execClosure oracle t (some (delBeforeFinish delOracle id)) stmts v tr).ok = true →
      execClosure oracle t (some (delBeforeFinish delOracle id)) stmts v tr
        = ⟨true, v.filter (fun x => !(x = id)),
            tr ++ stmts.map (Ev.execStmt t) ++ [Ev.del t id]⟩ := by
  intro stmts
  induction stmts with
  | nil =>
    intro v tr hok
    by_cases hd : delOracle id = true
    · simp [execClosure, delBeforeFinish, hd]
    · simp [execClosure, delBeforeFinish, hd] at hok
  | cons s rest ih =>
    intro v tr hok
    by_cases ho : oracle s = true
    · have hok2 : (execClosure oracle t (some (delBeforeFinish delOracle id)) rest v
          (tr ++ [Ev.execStmt t s])).ok = true := by
        rw [execClosure, if_pos ho] at hok
        exact hok
      rw [execClosure, if_pos ho, ih v (tr ++ [Ev.execStmt t s]) hok2]
      simp
    · rw [execClosure, if_neg ho] at hok
      simp at hok

theorem migrateWithSql_del_ok (oracle delOracle : String → Bool) (supportsTx : Bool)
    (txn : Nat) (down : ParsedMigration) (id : String) (meta : MetaView) (tr : List Ev)
    (meta2 : MetaView) (tr2 : List Ev)
    (h : migrateWithSqlStatements oracle supportsTx txn down
        (some (delBeforeFinish delOracle id)) meta tr = .ok (meta2, tr2)) :
    meta2 = meta.filter (fun x => !(x = id)) ∧
    ∃ t, tr2 = tr ++ down.Stmts.map (Ev.execStmt t) ++ [Ev.del t id] := by
  have main : ∀ t : DBTarget,
      (if (execClosure oracle t (some (delBeforeFinish delOracle id)) down.Stmts meta tr).ok
        then (Except.ok
          ((execClosure oracle t (some (delBeforeFinish delOracle id)) down.Stmts meta tr).view,
            (execClosure oracle t (some (delBeforeFinish delOracle id)) down.Stmts meta tr).trace)
          : Except Unit (MetaView × List Ev))
        else Except.error ()) = Except.ok (meta2, tr2) →
      meta2 = meta.filter (fun x => !(x = id)) ∧
      ∃ tt, tr2 = tr ++ down.Stmts.map (Ev.execStmt tt) ++ [Ev.del tt id] := by
    intro t hif
    cases hok : (execClosure oracle t (some (delBeforeFinish delOracle id)) down.Stmts meta tr).ok with
    | false =>
      rw [if_neg (by simp [hok])] at hif
      exact absurd hif (by simp)
    | true =>
      rw [if_pos (by simp [hok]), execClosure_del_ok oracle delOracle t id down.Stmts meta tr hok]
        at hif
      simp only [Except.ok.injEq, Prod.mk.injEq] at hif
      exact ⟨hif.1.symm, t, hif.2.symm⟩
  rw [migrateWithSqlStatements] at h
  by_cases hc : (!supportsTx || !down.UseTx) = true
  · rw [if_pos hc] at h
    exact main .pool h
  · rw [if_neg hc] at h
    exact main (.tx txn) h

theorem rollbackLoop_frame (oracle delOracle : String → Bool) (supportsTx : Bool) :
    ∀ (l : List Migration) (meta : MetaView) (tr : List Ev) (txn : Nat)
      (meta2 : MetaView) (tr2 : List Ev),
      rollbackLoop oracle delOracle supportsTx l meta tr txn = .ok (meta2, tr2) →
      (∀ x, x ∈ meta2 → x ∈ meta) ∧ ∃ ext, tr2 = tr ++ ext := by
  intro l
  induction l with
  | nil =>
    intro meta tr txn meta2 tr2 h
    simp only [rollbackLoop, Except.ok.injEq, Prod.mk.injEq] at h
    obtain ⟨rfl, rfl⟩ := h
    exact ⟨fun x hx => hx, [], by simp⟩
  | cons u rest ih =>
    intro meta tr txn meta2 tr2 h
    cases hd : u.Down with
    | none =>
      simp only [rollbackLoop, hd] at h
      exact Except.noConfusion h
    | some down =>
      cases hm : migrateWithSqlStatements oracle supportsTx txn down
          (some (delBeforeFinish delOracle u.ID)) meta tr with
      | error e =>
        simp only [rollbackLoop, hd, hm] at h
        exact Except.noConfusion h
      | ok p =>
        obtain ⟨m1, t1⟩ := p
        simp only [rollbackLoop, hd, hm] at h
        obtain ⟨hsub, ext, hext⟩ := ih m1 t1 (txn + 1) meta2 tr2 h
        obtain ⟨hview, t, htrace⟩ := migrateWithSql_del_ok oracle delOracle supportsTx
          txn down u.ID meta tr m1 t1 hm
        refine ⟨fun x hx => ?_, ?_⟩
        · have := hsub x hx
          rw [hview] at this
          exact (List.mem_filter.mp this).1
        · exact ⟨down.Stmts.map (Ev.execStmt t) ++ [Ev.del t u.ID] ++ ext,
            by rw [hext, htrace]; simp⟩

theorem rollbackLoop_deletes (oracle delOracle : String → Bool) (supportsTx : Bool) :
    ∀ (l : List Migration) (meta : MetaView) (tr : List Ev) (txn : Nat)
      (meta2 : MetaView) (tr2 : List Ev),
      rollbackLoop oracle delOracle supportsTx l meta tr txn = .ok (meta2, tr2) →
      (∀ u ∈ l, u.ID ∉ meta2) ∧
      (∀ u ∈ l, ∃ down t pre post, u.Down = some down ∧
        tr2 = pre ++ (down.Stmts.map (Ev.execStmt t) ++ [Ev.del t u.ID]) ++ post) := by
  intro l
  induction l with
  | nil =>
    intro meta tr txn meta2 tr2 _
    exact ⟨by simp, by simp⟩
  | cons u rest ih =>
    intro meta tr txn meta2 tr2 h
    cases hd : u.Down with
    | none =>
      simp only [rollbackLoop, hd] at h
      exact Except.noConfusion h
    | some down =>
      cases hm : migrateWithSqlStatements oracle supportsTx txn down
          (some (delBeforeFinish delOracle u.ID)) meta tr with
      | error e =>
        simp only [rollbackLoop, hd, hm] at h
        exact Except.noConfusion h
      | ok p =>
        obtain ⟨m1, t1⟩ := p
        simp only [rollbackLoop, hd, hm] at h
        obtain ⟨hview, t, htrace⟩ := migrateWithSql_del_ok oracle delOracle supportsTx
          txn down u.ID meta tr m1 t1 hm
        obtain ⟨ihdel, ihtr⟩ := ih m1 t1 (txn + 1) meta2 tr2 h
        obtain ⟨hsub, ext, hext⟩ := rollbackLoop_frame oracle delOracle supportsTx
          rest m1 t1 (txn + 1) meta2 tr2 h
        constructor
        · intro v hv
          rcases List.mem_cons.mp hv with rfl | hv
          · intro hmem
            have := hsub v.ID hmem
            rw [hview] at this
            have := (List.mem_filter.mp this).2
            simp at this
          · exact ihdel v hv
        · intro v hv
          rcases List.mem_cons.mp hv with rfl | hv
          · refine ⟨down, t, tr, ext, hd, ?_⟩
            rw [hext, htrace]
            simp
          · exact ihtr v hv

/-- C3: in the state-passing model of the rollback engine, a successful
`stageRollback` over a non-empty unknown set in which every member carries a
stored down-migration leaves the persisted store without any record whose id
is in the set; and for each member the final trace contains a contiguous
block in which its down-statements and the `DeleteMigration` of its meta row
all run on one and the same execution target, the delete being issued by the
`beforeFinish` callback after the statements. -/
theorem stageRollback_deletes_unknown (oracle delOracle : String → Bool)
    (supportsTx : Bool) (unknownApplied : List Migration) (meta : MetaView)
    (tr : List Ev) (meta2 : MetaView) (tr2 : List Ev)
    (_hne : unknownApplied ≠ [])
    (hdown : ∀ u ∈ unknownApplied, u.Down.isSome = true)
    (hok : stageRollback oracle delOracle supportsTx unknownApplied meta tr
        = .ok (meta2, tr2)) :
    (∀ u ∈ unknownApplied, u.ID ∉ meta2) ∧
    (∀ u ∈ unknownApplied, ∃ down t pre post, u.Down = some down ∧
      tr2 = pre ++ (down.Stmts.map (Ev.execStmt t) ++ [Ev.del t u.ID]) ++ post) := by
  have hall : allUnknownProvideParsedDown unknownApplied = true := by
    rw [allUnknownProvideParsedDown, List.all_eq_true]
    intro u hu
    exact hdown u hu
  rw [stageRollback, hall] at hok
  simp only [Bool.not_true, Bool.false_eq_true, if_false] at hok
  obtain ⟨hdel, htr⟩ := rollbackLoop_deletes oracle delOracle supportsTx
    unknownApplied.reverse meta tr 0 meta2 tr2 hok
  exact ⟨fun u hu => hdel u (List.mem_reverse.mpr hu),
    fun u hu => htr u (List.mem_reverse.mpr hu)⟩

/-- Witness for C3 at the concrete scenario S4: the unknown record with id 3
carries the down-migration DROP X; after a successful rollback the store
holds only ids 1 and 2 and the trace runs DROP X and the delete of id 3 on
the same transaction target. -/
theorem stageRollback_deletes_unknown_witness :
    (∀ u ∈ [({ ID := "3", Down := some ⟨true, ["DROP X"]⟩ } : Migration)],
      u.ID ∉ (["1", "2"] : MetaView)) ∧
    (∀ u ∈ [({ ID := "3", Down := some ⟨true, ["DROP X"]⟩ } : Migration)],
      ∃ down t pre post, u.Down = some down ∧
        [Ev.execStmt (DBTarget.tx 0) "DROP X", Ev.del (DBTarget.tx 0) "3"]
          = pre ++ (down.Stmts.map (Ev.execStmt t) ++ [Ev.del t u.ID]) ++ post) :=
  stageRollback_deletes_unknown (fun _ => true) (fun _ => true) true
    [{ ID := "3", Down := some ⟨true, ["DROP X"]⟩ }] ["1", "2", "3"] []
    ["1", "2"] [Ev.execStmt (DBTarget.tx 0) "DROP X", Ev.del (DBTarget.tx 0) "3"]
    (by decide) (by decide) rfl

/-! ## C5 -/

theorem runRollbackFlag_aux :
    ∀ (evs : List RunEv) (b : Bool),
      evs.foldl stepRollback b = (b || evs.any fun e => match e with
        | .op k ok => !ok && opSetsRollback k
        | .callerError => false) := by
  intro evs
  induction evs with
  | nil => intro b; simp
  | cons e rest ih =>
    intro b
    rw [List.foldl_cons, List.any_cons, ih (stepRollback b e)]
    cases e with
    | op k ok => simp [stepRollback, Bool.or_assoc]
    | callerError => simp [stepRollback]

/-- C5 counterexample: with a global transaction in use, a run in which a
caller-level error occurs but no driver operation fails still ends with
`Close` committing the global transaction, refuting the claim that a
caller-level error prevents the commit. -/
theorem closeCommit_callerError_cex :
    closeAct ⟨true, true⟩ (runRollbackFlag [RunEv.callerError]) = CloseAct.commitTx ∧
    RunEv.callerError ∈ [RunEv.callerError] := by
  decide

/-- C5 (amended): when the wrapped driver reports both SupportsTx and
UseGlobalTx, Init installs the single global transaction as the run target,
and Close commits it exactly when the internal rollback flag is unset; the
flag is set exactly by a failing driver operation whose kind records the
error — every kind including a failing beforeFinish callback, except the
two ListMigrations paths that return without touching the flag, namely the
initial query and a failing row scan — while caller-level errors outside
driver operations never affect the decision. -/
theorem closeCommit_iff_rollbackFlag (d : DriverCaps)
    (h : d.supportsTx = true ∧ d.useGlobalTx = true) :
    initTarget d = .globalTx ∧
    (opSetsRollback .listQuery = false ∧ opSetsRollback .listScan = false ∧
      ∀ k, k ≠ OpKind.listQuery → k ≠ OpKind.listScan → opSetsRollback k = true) ∧
    ∀ evs : List RunEv,
      (closeAct d (runRollbackFlag evs) = .commitTx ↔ runRollbackFlag evs = false) ∧
      (runRollbackFlag evs = true ↔
        ∃ k, RunEv.op k false ∈ evs ∧ opSetsRollback k = true) := by
  obtain ⟨h1, h2⟩ := h
  refine ⟨by simp [initTarget, h1, h2],
    ⟨rfl, rfl, fun k hk1 hk2 => by cases k <;> simp_all [opSetsRollback]⟩,
    fun evs => ⟨?_, ?_⟩⟩
  · rw [closeAct]
    simp only [h1, h2, Bool.and_self, if_true]
    cases hf : runRollbackFlag evs <;> simp
  · rw [runRollbackFlag, runRollbackFlag_aux evs false]
    simp only [Bool.false_or]
    rw [List.any_eq_true]
    constructor
    · rintro ⟨e, hmem, hbad⟩
      cases e with
      | op k ok =>
        cases ok
        · exact ⟨k, hmem, by simpa using hbad⟩
        · simp at hbad
      | callerError => simp at hbad
    · rintro ⟨k, hmem, hk⟩
      exact ⟨.op k false, hmem, by simp [hk]⟩

/-- Witness for C5 (amended) at the concrete capability pair (true, true). -/
theorem closeCommit_iff_rollbackFlag_witness :
    ((⟨true, true⟩ : DriverCaps).supportsTx = true
      ∧ (⟨true, true⟩ : DriverCaps).useGlobalTx = true) ∧
    (initTarget ⟨true, true⟩ = .globalTx ∧
      (opSetsRollback .listQuery = false ∧ opSetsRollback .listScan = false ∧
        ∀ k, k ≠ OpKind.listQuery → k ≠ OpKind.listScan → opSetsRollback k = true) ∧
      ∀ evs : List RunEv,
        (closeAct ⟨true, true⟩ (runRollbackFlag evs) = .commitTx
          ↔ runRollbackFlag evs = false) ∧
        (runRollbackFlag evs = true ↔
          ∃ k, RunEv.op k false ∈ evs ∧ opSetsRollback k = true)) :=
  ⟨by decide, closeCommit_iff_rollbackFlag ⟨true, true⟩ (by decide)⟩

/-! ## C6 -/

/-- C6 counterexample: the adapt-package MySQL dialect driver of
src/unnamed/part_002 — the code the claim cites — reports supportsLocks
false and useGlobalTx true, refuting the claimed capability values. -/
theorem mysql_part002_caps_cex :
    ¬ (({} : MysqlDriverNew).SupportsLocks = true
      ∧ ({} : MysqlDriverNew).UseGlobalTx = false) := by
  decide

/-- C6 (amended): the adapt-package MySQL dialect driver reports
supportsLocks = false, its lock methods panic and yield no query,
useGlobalTx = true, and its delete query is DELETE FROM t WHERE id=?; the
capability row of the claim — supportsLocks true with LOCK TABLE t WRITE and
UNLOCK TABLES, useGlobalTx false — holds of the legacy core-package MySQL
dialect driver. -/
theorem mysql_driver_caps (dNew : MysqlDriverNew) (dCore : MysqlDriverCore) :
    dNew.SupportsLocks = false ∧ dNew.AcquireLock = none ∧ dNew.ReleaseLock = none
      ∧ dNew.UseGlobalTx = true
      ∧ dNew.DeleteMigration "x" = ("DELETE FROM " ++ dNew.tableName ++ " WHERE id=?", ["x"])
      ∧ dCore.SupportsLocks = true
      ∧ dCore.AcquireLock = "LOCK TABLE " ++ dCore.tableName ++ " WRITE"
      ∧ dCore.ReleaseLock = "UNLOCK TABLES"
      ∧ dCore.UseGlobalTx = false
      ∧ dCore.DeleteMigration "x" = ("DELETE FROM " ++ dCore.tableName ++ " WHERE id=?", ["x"]) :=
  ⟨rfl, rfl, rfl, rfl, rfl, rfl, rfl, rfl, rfl, rfl⟩

/-! ## C7 -/

theorem hexEncode_length (buf : List Nat) : (hexEncode buf).length = 2 * buf.length := by
  induction buf with
  | nil => rfl
  | cons b rest ih =>
    simp only [hexEncode, List.map_cons, List.flatten_cons, List.length_append] at ih ⊢
    simp [hexEncodeByte, ih]
    omega

theorem hexEncode_lower (buf : List Nat) :
    ∀ c ∈ hexEncode buf, isLowerHexDigit c = true := by
  have hd : ∀ n : Nat, n < 16 → isLowerHexDigit (hexDigit n) = true := by decide
  induction buf with
  | nil => simp [hexEncode]
  | cons b rest ih =>
    intro c hc
    simp only [hexEncode, List.map_cons, List.flatten_cons, List.mem_append] at hc
    rcases hc with hc | hc
    · simp only [hexEncodeByte, List.mem_cons, List.not_mem_nil, or_false] at hc
      rcases hc with rfl | rfl
      · exact hd _ (Nat.mod_lt _ (by omega))
      · exact hd _ (Nat.mod_lt _ (by omega))
    · exact ih c hc

/-- C7 counterexample: the deployment id generated from twelve zero bytes
has 33 characters, not the 26 the claim states. -/
theorem genDeploymentID_length_cex :
    (genDeploymentID (List.replicate 12 0)).length = 33 ∧
    ¬ (genDeploymentID (List.replicate 12 0)).length = 26 := by
  decide

/-- C7 (amended): every deployment id generated from a 12-byte random
buffer is the 33-character string `ADAPT-` followed by four dash-separated
groups of six lowercase hexadecimal characters, hence matches the stated
regex; the claimed total length of 26 is replaced by 33, which the format
itself forces. -/
theorem genDeploymentID_format (buf : List Nat) (hlen : buf.length = 12) :
    ∃ g1 g2 g3 g4 : List Char,
      genDeploymentID buf = "ADAPT-" ++ String.mk g1 ++ "-" ++ String.mk g2 ++ "-"
        ++ String.mk g3 ++ "-" ++ String.mk g4 ∧
      g1.length = 6 ∧ g2.length = 6 ∧ g3.length = 6 ∧ g4.length = 6 ∧
      (∀ c ∈ g1, isLowerHexDigit c = true) ∧ (∀ c ∈ g2, isLowerHexDigit c = true) ∧
      (∀ c ∈ g3, isLowerHexDigit c = true) ∧ (∀ c ∈ g4, isLowerHexDigit c = true) ∧
      (genDeploymentID buf).length = 33 := by
  have h24 : (hexEncode buf).length = 24 := by rw [hexEncode_length, hlen]
  have hlower := hexEncode_lower buf
  refine ⟨(hexEncode buf).take 6, ((hexEncode buf).drop 6).take 6,
    ((hexEncode buf).drop 12).take 6, (hexEncode buf).drop 18, rfl,
    ?_, ?_, ?_, ?_, ?_, ?_, ?_, ?_, ?_⟩
  · simp [List.length_take, h24]
  · simp [List.length_take, List.length_drop, h24]
  · simp [List.length_take, List.length_drop, h24]
  · simp [List.length_drop, h24]
  · exact fun c hc => hlower c (List.take_subset 6 _ hc)
  · exact fun c hc => hlower c (List.drop_subset 6 _ (List.take_subset 6 _ hc))
  · exact fun c hc => hlower c (List.drop_subset 12 _ (List.take_subset 6 _ hc))
  · exact fun c hc => hlower c (List.drop_subset 18 _ hc)
  · show (genDeploymentID buf).length = 33
    have : genDeploymentID buf = "ADAPT-" ++ String.mk ((hexEncode buf).take 6) ++ "-"
        ++ String.mk (((hexEncode buf).drop 6).take 6) ++ "-"
        ++ String.mk (((hexEncode buf).drop 12).take 6) ++ "-"
        ++ String.mk ((hexEncode buf).drop 18) := rfl
    rw [this]
    simp [String.length_append, List.length_take, List.length_drop, h24]
    decide

/-- Witness for C7 (amended) at the all-zero 12-byte buffer. -/
theorem genDeploymentID_format_witness :
    (List.replicate 12 0).length = 12 ∧
    ∃ g1 g2 g3 g4 : List Char,
      genDeploymentID (List.replicate 12 0) = "ADAPT-" ++ String.mk g1 ++ "-"
        ++ String.mk g2 ++ "-" ++ String.mk g3 ++ "-" ++ String.mk g4 ∧
      g1.length = 6 ∧ g2.length = 6 ∧ g3.length = 6 ∧ g4.length = 6 ∧
      (∀ c ∈ g1, isLowerHexDigit c = true) ∧ (∀ c ∈ g2, isLowerHexDigit c = true) ∧
      (∀ c ∈ g3, isLowerHexDigit c = true) ∧ (∀ c ∈ g4, isLowerHexDigit c = true) ∧
      (genDeploymentID (List.replicate 12 0)).length = 33 :=
  ⟨by decide, genDeploymentID_format (List.replicate 12 0) (by decide)⟩

/-! ## C8 -/

/-- A fidelity check of the parser embedding against the behaviour the
repository test suite pins down: directives, multi-line statements and
semicolon splitting. -/
theorem parse_example_allFeatures :
    Parse ("-- +adapt NoTransaction\nCREATE DATABASE testdb\n    COLLATE x;\n\nCREATE TABLE a (id INT);\n-- +adapt BeginStatement\nCREATE TRIGGER t BEGIN\n    INSERT INTO b\nEND\n-- +adapt EndStatement\n\nINSERT INTO a (id) VALUES(1); INSERT INTO a (id) VALUES(2);\n".toList)
      = .ok ⟨false,
          ["CREATE DATABASE testdb\n    COLLATE x;",
            "CREATE TABLE a (id INT);",
            "CREATE TRIGGER t BEGIN\n    INSERT INTO b\nEND",
            "INSERT INTO a (id) VALUES(1);",
            "INSERT INTO a (id) VALUES(2);"]⟩ := by
  rfl

/-- C8: evaluating the parser at the input A CR LF B semicolon shows the
carriage return standing immediately before the line feed is NOT dropped:
the emitted statement still contains it. The scanner hands each line to
dropCR with the trailing newline still attached, so the final-character
check of dropCR never sees the CR of a CRLF line, contradicting the claim
(and the specification) that such a CR is dropped. -/
theorem parse_keeps_cr_before_lf :
    Parse ("A\r\nB;".toList) = .ok ⟨true, ["A\r\nB;"]⟩ ∧
    "A\r\nB;" ≠ "A\nB;" ∧
    dropCR "A\r\n".toList = "A\r\n".toList := by
  exact ⟨rfl, by decide, rfl⟩

/-! ## C9 -/

/-- C9: `run()` always executes the close stage, executes the unlock stage
exactly on the paths where the driver lock was acquired, reports the first
stage error when one exists (discarding teardown errors), and otherwise
reports the unlock error (when the lock was held) and then the close
error. -/
theorem run_teardown_spec (ε : Type) (env : RunEnv ε) :
    (runModel env).closeRan = true ∧
    (runModel env).unlockRan = lockWasAcquired env ∧
    (∀ e, firstStageErr env = some e → (runModel env).err = some e) ∧
    (firstStageErr env = none →
      (runModel env).err
        = (if lockWasAcquired env then env.unlockE else none).or env.closeE) := by
  obtain ⟨i, h, p, a, lk, pr, st, un, cl⟩ := env
  cases i <;> cases h <;> cases p <;> cases a <;> cases pr <;> cases st <;> cases lk <;>
    cases un <;> simp [runModel, firstStageErr, lockWasAcquired, Option.or]

/-- Witness for C9: a run whose init stage fails with error 7 while the
close stage would fail with error 9 reports 7, and close still ran. -/
theorem run_teardown_spec_witness :
    (runModel ⟨some 7, none, none, none, false, none, none, none, some 9⟩).err = some 7 ∧
    (runModel ⟨some 7, none, none, none, false, none, none, none, some 9⟩).closeRan = true :=
  ⟨(run_teardown_spec Nat ⟨some 7, none, none, none, false, none, none, none, some 9⟩).2.2.1
      7 rfl,
    (run_teardown_spec Nat ⟨some 7, none, none, none, false, none, none, none, some 9⟩).1⟩

/-! ## C10 -/

/-- C10: the migrations with statement lists [ab] and [a, b] share the
transaction flag, differ in their statement lists, and feed identical byte
streams to the digest because `Hash` writes the statements back to back
with no separator — so their hashes agree for every digest function and the
`hashEqual` integrity comparison accepts the pair. -/
theorem hash_no_separator_collision :
    (∀ sha256hex : String → String,
      ParsedMigration.Hash sha256hex ⟨true, ["ab"]⟩
          = ParsedMigration.Hash sha256hex ⟨true, ["a", "b"]⟩ ∧
      hashEqual (some (ParsedMigration.Hash sha256hex ⟨true, ["ab"]⟩))
          (some (ParsedMigration.Hash sha256hex ⟨true, ["a", "b"]⟩)) = true) ∧
    (⟨true, ["ab"]⟩ : ParsedMigration).Stmts ≠ (⟨true, ["a", "b"]⟩ : ParsedMigration).Stmts ∧
    (⟨true, ["ab"]⟩ : ParsedMigration).UseTx = (⟨true, ["a", "b"]⟩ : ParsedMigration).UseTx := by
  refine ⟨fun f => ?_, by decide, rfl⟩
  have hin : hashInput ⟨true, ["ab"]⟩ = hashInput ⟨true, ["a", "b"]⟩ := by rfl
  have h : ParsedMigration.Hash f ⟨true, ["ab"]⟩
      = ParsedMigration.Hash f ⟨true, ["a", "b"]⟩ := by
    rw [ParsedMigration.Hash, ParsedMigration.Hash, hin]
  refine ⟨h, ?_⟩
  rw [h]
  simp [hashEqual]

end Adapt
